import Mathlib

/-!
# Verification of the helmchecker AI provider resilience layer

Shallow embedding of the `internal/ai` package (memory cache, cache key
generation, cached provider decorator, provider fallback chain, usage
metrics) and of the Copilot provider's retry loop.

Modelling conventions:
* Go `time.Time` and `time.Duration` are `Int` (nanoseconds); `time.Now()`
  becomes an explicit `now : Int` parameter.
* Go `int`/`int64` counters are `Int`; `float64` fields (costs, temperature,
  confidence) are modelled as exact `Int` values — no claim below depends on
  floating-point rounding.
* Go maps whose iteration order is irrelevant to the claims are association
  lists (`List (String × _)`); pointer-typed struct fields become values,
  matching the copy semantics the source relies on (`responseCopy := *entry.response`).
* Fallible Go functions returning `error` become `Except`/`Option` results;
  mutation of a struct behind a pointer becomes explicit state passing.
-/

/-- `ai.TokenUsage` (config_test.go): token consumption of one call. -/
structure TokenUsage where
  promptTokens : Int
  completionTokens : Int
  totalTokens : Int
  estimatedCost : Int
deriving DecidableEq, Repr

/-- `ai.RepositoryInfo` (config_test.go): repository metadata. -/
structure RepositoryInfo where
  owner : String
  name : String
  url : String
  branch : String
  commitSHA : String
  lastUpdate : Int
deriving DecidableEq, Repr

/-- `ai.PatternInfo` (config_test.go): a detected GitOps pattern. -/
structure PatternInfo where
  type : String
  version : String
  path : String
  confidence : Int
  resources : List String
deriving DecidableEq, Repr

/-- `ai.HelmChartInfo` (config_test.go): Helm chart information. -/
structure HelmChartInfo where
  name : String
  version : String
  appVersion : String
  path : String
  valuesFiles : List String
  dependencies : List String
  deprecated : Bool
  latestVersion : String
  breakingChanges : List String
deriving DecidableEq, Repr

/-- `ai.CommitInfo` (config_test.go): a Git commit. -/
structure CommitInfo where
  sha : String
  author : String
  date : Int
  message : String
  filesChanged : List String
deriving DecidableEq, Repr

/-- `ai.AnalysisContext` (config_test.go). The `map[string]interface{}`
fields are modelled as association lists of already-serialized values. -/
structure AnalysisContext where
  repositoryInfo : Option RepositoryInfo
  detectedPatterns : List PatternInfo
  helmCharts : List HelmChartInfo
  gitHistory : List CommitInfo
  currentState : List (String × String)
  targetState : List (String × String)
  constraints : List String
  additionalContext : List (String × String)
deriving DecidableEq, Repr

/-- `ai.RequestOptions` (config_test.go). `AdditionalOptions` is an
association list of serialized values. -/
structure RequestOptions where
  stream : Bool
  useCache : Bool
  cacheTTL : Int
  retryCount : Int
  retryDelay : Int
  timeout : Int
  responseFormat : String
  includeConfidence : Bool
  additionalOptions : List (String × String)
deriving DecidableEq, Repr

/-- `ai.Request` (config_test.go). `AnalysisType` is a Go string type and is
modelled as `String`. -/
structure Request where
  id : String
  context : Option AnalysisContext
  query : String
  type : String
  options : RequestOptions
  maxTokens : Int
  temperature : Int
  metadata : List (String × String)
deriving DecidableEq, Repr

/-- `ai.Response` (config_test.go). `StructuredData interface{}` is modelled
as the optional JSON serialization the cache's `calculateSize` would produce
for it. -/
structure Response where
  id : String
  content : String
  structuredData : Option String
  confidence : Int
  tokensUsed : TokenUsage
  provider : String
  duration : Int
  metadata : List (String × String)
  cached : Bool
deriving DecidableEq, Repr

/-! ## MemoryCache (cache.go) -/

/-- `ai.CacheStats` (cache.go). Only the fields mutated by the cache
operations are kept; `HitRate`/`AverageItemSize` are derived in `Stats()`
and not part of the state. -/
structure CacheStats where
  hits : Int
  misses : Int
  evictions : Int
  size : Int
  count : Int
deriving DecidableEq, Repr

/-- `ai.cacheEntry` (cache.go). The LRU list linkage is represented by the
entry's position in `MemoryCache.lru`. -/
structure CacheEntry where
  key : String
  response : Response
  size : Int
  expiresAt : Int
deriving DecidableEq, Repr

/-- `ai.MemoryCache` (cache.go). `items` (the map) and `lru` (the
`container/list`) are together modelled by the single list `lru`, ordered
most-recently-used first; the map is its key-indexed view. -/
structure MemoryCache where
  maxSize : Int
  currentSize : Int
  lru : List CacheEntry
  stats : CacheStats
deriving DecidableEq, Repr

/-- `ai.ErrCacheFailed` (errors file). -/
structure ErrCacheFailed where
  operation : String
  reason : String
deriving DecidableEq, Repr

/-- `ai.NewMemoryCache` (cache.go). -/
def newMemoryCache (maxSize : Int) : MemoryCache :=
  { maxSize := maxSize, currentSize := 0, lru := [], stats := ⟨0, 0, 0, 0, 0⟩ }

/-- Byte size of a metadata map, as summed by `calculateSize`. -/
def metadataSize : List (String × String) → Int
  | [] => 0
  | (k, v) :: rest => (k.length : Int) + (v.length : Int) + metadataSize rest

/-- `MemoryCache.calculateSize` (cache.go): string field lengths, metadata
sizes, serialized structured data, plus a fixed 128-byte overhead. -/
def calculateSize (r : Response) : Int :=
  (r.id.length : Int) + (r.content.length : Int) + (r.provider.length : Int)
    + metadataSize r.metadata
    + (match r.structuredData with
       | some d => (d.length : Int)
       | none => 0)
    + 128

/-- `items[key]` lookup (cache.go): first entry with the given key. -/
def findEntry (c : MemoryCache) (key : String) : Option CacheEntry :=
  c.lru.find? (fun e => e.key == key)

/-- `MemoryCache.deleteEntry` (cache.go): remove the entry from the LRU list
and the items map and subtract its size. -/
def deleteEntry (c : MemoryCache) (e : CacheEntry) : MemoryCache :=
  { c with
    lru := c.lru.filter (fun x => x.key != e.key),
    currentSize := c.currentSize - e.size }

/-- `MemoryCache.Get` (cache.go): miss on absence; lazily expire (strictly
after `expiresAt`) recording a miss; otherwise promote to most-recently-used,
record a hit and return a copy of the stored response with `Cached = true`. -/
def memGet (c : MemoryCache) (now : Int) (key : String) :
    Option Response × MemoryCache :=
  match findEntry c key with
  | none => (none, { c with stats := { c.stats with misses := c.stats.misses + 1 } })
  | some e =>
    if now > e.expiresAt then
      let c' := deleteEntry c e
      (none, { c' with stats := { c'.stats with misses := c'.stats.misses + 1 } })
    else
      let c' := { c with
        lru := e :: c.lru.filter (fun x => x.key != e.key),
        stats := { c.stats with hits := c.stats.hits + 1 } }
      (some { e.response with cached := true }, c')

/-- `MemoryCache.evictOldest` (cache.go): remove the least-recently-used
entry (the back of the LRU list) and record an eviction. -/
def evictOldest (c : MemoryCache) : MemoryCache :=
  match c.lru.getLast? with
  | none => c
  | some e =>
    let c' := deleteEntry c e
    { c' with stats := { c'.stats with evictions := c'.stats.evictions + 1 } }

/-- The eviction loop of `MemoryCache.Set` (cache.go): evict while the
insertion would exceed `maxSize` and entries remain. `fuel` bounds the
recursion; each iteration removes at least one entry, so `c.lru.length`
fuel always reaches the loop's exit condition (see
`evictLoop_post`). -/
def evictLoopFuel : Nat → MemoryCache → Int → MemoryCache
  | 0, c, _ => c
  | fuel + 1, c, size =>
    if c.currentSize + size > c.maxSize ∧ c.lru ≠ [] then
      evictLoopFuel fuel (evictOldest c) size
    else
      c

/-- Eviction loop entry point: fuel is the number of live entries. -/
def evictLoop (c : MemoryCache) (size : Int) : MemoryCache :=
  evictLoopFuel c.lru.length c size

/-- The update-in-place prelude of `MemoryCache.Set` (cache.go): when an
entry for `key` exists, subtract its size and call `deleteEntry` — the
source thereby subtracts the existing size twice, once explicitly and once
inside `deleteEntry`. -/
def memSetRemoveExisting (c : MemoryCache) (key : String) : MemoryCache :=
  match findEntry c key with
  | some existing =>
    deleteEntry { c with currentSize := c.currentSize - existing.size } existing
  | none => c

/-- `MemoryCache.Set` (cache.go). Returns the error (if any) together with
the updated state. -/
def memSet (c : MemoryCache) (now : Int) (key : String) (resp : Response)
    (ttl : Int) : Except ErrCacheFailed Unit × MemoryCache :=
  let size := calculateSize resp
  let c2 := evictLoop (memSetRemoveExisting c key) size
  if size > c2.maxSize then
    let m := c2.maxSize
    (.error ⟨"set", s!"item size {size} exceeds max cache size {m}"⟩, c2)
  else
    let entry : CacheEntry := ⟨key, resp, size, now + ttl⟩
    let c3 := { c2 with lru := entry :: c2.lru, currentSize := c2.currentSize + size }
    (.ok (), { c3 with stats := { c3.stats with count := c3.lru.length, size := c3.currentSize } })

/-- `MemoryCache.Delete` (cache.go). Always returns nil in Go; only the
state is modelled. -/
def memDelete (c : MemoryCache) (key : String) : MemoryCache :=
  match findEntry c key with
  | none => c
  | some e =>
    let c' := deleteEntry c e
    { c' with stats := { c'.stats with count := c'.lru.length, size := c'.currentSize } }

/-- `MemoryCache.Clear` (cache.go). -/
def memClear (c : MemoryCache) : MemoryCache :=
  { c with
    lru := []
    currentSize := 0
    stats := { c.stats with count := 0, size := 0 } }

/-- `MemoryCache.Size` (cache.go): the tracked byte size. -/
def memSize (c : MemoryCache) : Int :=
  c.currentSize

/-- `MemoryCache.Count` (cache.go): `len(c.items)`. -/
def memCount (c : MemoryCache) : Nat :=
  c.lru.length

/-- Sum of the tracked sizes of a list of entries. -/
def sumSizes : List CacheEntry → Int
  | [] => 0
  | e :: rest => e.size + sumSizes rest

/-- `MemoryCache.CleanupExpired` (cache.go): remove every entry strictly past
its expiry; the net effect is order-independent, so the map iteration is
modelled as a filter. Returns the new state and the removed count. -/
def memCleanup (c : MemoryCache) (now : Int) : MemoryCache × Nat :=
  let expired := c.lru.filter (fun e => decide (now > e.expiresAt))
  let remaining := c.lru.filter (fun e => !decide (now > e.expiresAt))
  let newSize := c.currentSize - sumSizes expired
  ({ c with
      lru := remaining
      currentSize := newSize
      stats := { c.stats with count := remaining.length, size := newSize } },
   expired.length)

/-- One cache operation, for reasoning about arbitrary operation sequences. -/
inductive CacheOp where
  | set (now : Int) (key : String) (resp : Response) (ttl : Int)
  | get (now : Int) (key : String)
  | del (key : String)
  | clear
  | cleanup (now : Int)
deriving Repr

/-- Apply one operation, discarding the returned value. -/
def applyOp (c : MemoryCache) : CacheOp → MemoryCache
  | .set now key resp ttl => (memSet c now key resp ttl).2
  | .get now key => (memGet c now key).2
  | .del key => memDelete c key
  | .clear => memClear c
  | .cleanup now => (memCleanup c now).1

/-- Apply a sequence of operations in order. -/
def applyOps (c : MemoryCache) : List CacheOp → MemoryCache
  | [] => c
  | op :: rest => applyOps (applyOp c op) rest

/-! ## Cache key generation (cache.go) -/

/-- The anonymous key struct built inside `GenerateCacheKey` (cache.go):
exactly the fields `{Query, Type, MaxTokens, Temperature, Context}`. -/
structure CacheKeyData where
  query : String
  type : String
  maxTokens : Int
  temperature : Int
  context : Option AnalysisContext
deriving DecidableEq, Repr

/-- The key-data extraction performed by `GenerateCacheKey` (cache.go). -/
def keyData (req : Request) : CacheKeyData :=
  { query := req.query
    type := req.type
    maxTokens := req.maxTokens
    temperature := req.temperature
    context := req.context }

/-- Models `json.Marshal` followed by `sha256.Sum256` and hex formatting as a
deterministic encoding of the key-data value. Both the JSON/SHA-256 branch
and the `fmt.Sprintf("%s:%s", Type, Query)` fallback in the source are pure
functions of the key data alone; no claim depends on more than that, so the
digest is modelled by a concrete deterministic encoding. -/
def hashKeyData (kd : CacheKeyData) : String :=
  toString (repr kd)

/-- `ai.GenerateCacheKey` (cache.go). -/
def generateCacheKey (req : Request) : String :=
  hashKeyData (keyData req)

/-! ## CachedProvider (cache.go) -/

/-- `CachedProvider.Analyze` (cache.go), with the wrapped provider modelled
as a pure call `providerFn` and the provider error as a string. `defaultTTL`
is the decorator's `ttl` field. The `Set` error is discarded (`_ =` in the
source): a cache-store failure never fails the request. -/
def cachedAnalyze (providerFn : Request → Except String Response)
    (defaultTTL : Int) (cache : MemoryCache) (now : Int) (req : Request) :
    Except String Response × MemoryCache :=
  if req.options.useCache then
    match memGet cache now (generateCacheKey req) with
    | (some r, c') => (.ok r, c')
    | (none, c') =>
      match providerFn req with
      | .error e => (.error e, c')
      | .ok resp =>
        let ttl := if req.options.cacheTTL > 0 then req.options.cacheTTL else defaultTTL
        let c'' := (memSet c' now (generateCacheKey req) resp ttl).2
        (.ok resp, c'')
  else
    match providerFn req with
    | .error e => (.error e, cache)
    | .ok resp => (.ok resp, cache)

/-! ## UsageMetrics (metrics file) -/

/-- `ai.ProviderMetrics`. -/
structure ProviderMetrics where
  name : String
  requests : Int
  successfulRequests : Int
  failedRequests : Int
  tokensUsed : Int
  totalCost : Int
  averageLatency : Int
  lastUsed : Int
deriving DecidableEq, Repr

/-- `ai.UsageMetrics`. The three Go maps are association lists; `AnalysisType`
keys are strings. -/
structure UsageMetrics where
  totalRequests : Int
  successfulRequests : Int
  failedRequests : Int
  cachedResponses : Int
  totalTokensUsed : Int
  totalCost : Int
  averageLatency : Int
  providerMetrics : List (String × ProviderMetrics)
  requestsByType : List (String × Int)
  errorsByType : List (String × Int)
  startTime : Int
  lastRequestTime : Int
deriving DecidableEq, Repr

/-- The zero-valued `ProviderMetrics{Name: provider}` that
`getOrCreateProviderMetrics` creates on first use. -/
def pmDefault (name : String) : ProviderMetrics :=
  { name := name, requests := 0, successfulRequests := 0, failedRequests := 0
    tokensUsed := 0, totalCost := 0, averageLatency := 0, lastUsed := 0 }

/-- `ai.NewUsageMetrics`: zero counters, `StartTime` set to now. -/
def newUsageMetrics (now : Int) : UsageMetrics :=
  { totalRequests := 0, successfulRequests := 0, failedRequests := 0
    cachedResponses := 0, totalTokensUsed := 0, totalCost := 0
    averageLatency := 0, providerMetrics := [], requestsByType := []
    errorsByType := [], startTime := now, lastRequestTime := 0 }

/-- `getOrCreateProviderMetrics` followed by in-place mutation of the
returned record: the first entry for `name` is updated, or a fresh default
entry is materialized and updated. -/
def updateAssocPM (l : List (String × ProviderMetrics)) (name : String)
    (f : ProviderMetrics → ProviderMetrics) : List (String × ProviderMetrics) :=
  match l with
  | [] => [(name, f (pmDefault name))]
  | (k, v) :: rest =>
    if k = name then (k, f v) :: rest
    else (k, v) :: updateAssocPM rest name f

/-- Map read `ProviderMetrics[name]` on the association list, with the zero
value Go would create on first use. -/
def pmAssocLookup (l : List (String × ProviderMetrics)) (name : String) :
    ProviderMetrics :=
  match l.find? (fun p => p.1 == name) with
  | some p => p.2
  | none => pmDefault name

/-- Map read `m.ProviderMetrics[provider]` with the zero value Go would
create on first use. -/
def pmLookup (m : UsageMetrics) (name : String) : ProviderMetrics :=
  pmAssocLookup m.providerMetrics name

/-- `mapCounts[key] += v` on an association-list map, creating the key at
zero when absent (Go map behaviour). -/
def bumpAssoc (l : List (String × Int)) (key : String) (v : Int) :
    List (String × Int) :=
  match l with
  | [] => [(key, v)]
  | (k, c) :: rest =>
    if k = key then (k, c + v) :: rest
    else (k, c) :: bumpAssoc rest key v

/-- Map read `mapCounts[key]` with Go's zero default. -/
def countLookup (l : List (String × Int)) (key : String) : Int :=
  match l.find? (fun p => p.1 == key) with
  | some p => p.2
  | none => 0

/-- `UsageMetrics.RecordRequest`: count a successful request and its tokens
and cost on the aggregate and on the provider sub-record. -/
def recordRequest (m : UsageMetrics) (now : Int) (provider : String)
    (tokens : TokenUsage) : UsageMetrics :=
  { m with
    totalRequests := m.totalRequests + 1
    successfulRequests := m.successfulRequests + 1
    totalTokensUsed := m.totalTokensUsed + tokens.totalTokens
    totalCost := m.totalCost + tokens.estimatedCost
    lastRequestTime := now
    providerMetrics := updateAssocPM m.providerMetrics provider (fun pm =>
      { pm with
        requests := pm.requests + 1
        successfulRequests := pm.successfulRequests + 1
        tokensUsed := pm.tokensUsed + tokens.totalTokens
        totalCost := pm.totalCost + tokens.estimatedCost
        lastUsed := now }) }

/-- `UsageMetrics.RecordFailure`: count a failed request on the aggregate,
the provider sub-record and the error-type histogram. -/
def recordFailure (m : UsageMetrics) (now : Int) (provider : String)
    (errType : String) : UsageMetrics :=
  { m with
    totalRequests := m.totalRequests + 1
    failedRequests := m.failedRequests + 1
    lastRequestTime := now
    providerMetrics := updateAssocPM m.providerMetrics provider (fun pm =>
      { pm with
        requests := pm.requests + 1
        failedRequests := pm.failedRequests + 1
        lastUsed := now })
    errorsByType := bumpAssoc m.errorsByType errType 1 }

/-- `UsageMetrics.RecordLatency`: fold `duration` into the running averages.
Go's `time.Duration` division truncates toward zero (`Int.tdiv`). -/
def recordLatency (m : UsageMetrics) (provider : String) (duration : Int) :
    UsageMetrics :=
  let newAvg :=
    if m.successfulRequests > 0 then
      (m.averageLatency * m.successfulRequests + duration).tdiv
        (m.successfulRequests + 1)
    else duration
  { m with
    averageLatency := newAvg
    providerMetrics := updateAssocPM m.providerMetrics provider (fun pm =>
      { pm with
        averageLatency :=
          if pm.successfulRequests > 0 then
            (pm.averageLatency * pm.successfulRequests + duration).tdiv
              (pm.successfulRequests + 1)
          else duration }) }

/-- Success bookkeeping in `CopilotProvider.Analyze`: `RecordRequest` is
invoked first, then `RecordLatency` — so by the time the latency sample is
folded in, the successful-request counters already include this request. -/
def copilotRecordSuccess (m : UsageMetrics) (now : Int) (provider : String)
    (tokens : TokenUsage) (duration : Int) : UsageMetrics :=
  recordLatency (recordRequest m now provider tokens) provider duration

/-- The five `+=` lines of `Merge`'s per-provider loop body: add `y`'s
counters into `x`, leaving `x`'s name, `AverageLatency` and `LastUsed`
untouched (the source copies neither). -/
def pmAddCounters (x y : ProviderMetrics) : ProviderMetrics :=
  { x with
    requests := x.requests + y.requests
    successfulRequests := x.successfulRequests + y.successfulRequests
    failedRequests := x.failedRequests + y.failedRequests
    tokensUsed := x.tokensUsed + y.tokensUsed
    totalCost := x.totalCost + y.totalCost }

/-- `UsageMetrics.Merge`: add the other instance's counters into the
receiver. `AverageLatency`, `StartTime` and `LastRequestTime` are not
touched by the source and are inherited from the receiver unchanged; the
per-provider merge likewise copies no latency or last-used data. -/
def merge (m other : UsageMetrics) : UsageMetrics :=
  { m with
    totalRequests := m.totalRequests + other.totalRequests
    successfulRequests := m.successfulRequests + other.successfulRequests
    failedRequests := m.failedRequests + other.failedRequests
    cachedResponses := m.cachedResponses + other.cachedResponses
    totalTokensUsed := m.totalTokensUsed + other.totalTokensUsed
    totalCost := m.totalCost + other.totalCost
    providerMetrics := other.providerMetrics.foldl
      (fun acc p => updateAssocPM acc p.1 (fun pm => pmAddCounters pm p.2))
      m.providerMetrics
    requestsByType := other.requestsByType.foldl
      (fun acc p => bumpAssoc acc p.1 p.2) m.requestsByType
    errorsByType := other.errorsByType.foldl
      (fun acc p => bumpAssoc acc p.1 p.2) m.errorsByType }

/-! ## ProviderChain (provider.go) -/

/-- A provider in a chain, modelled by its name and a pure `Analyze`
result for the request under consideration; errors are their message
strings. -/
structure PureProvider where
  name : String
  analyze : Request → Except String Response

/-- `ai.ErrAllProvidersFailed` (errors file): wraps the last failure.
`none` is Go's nil `LastError` (empty chain). -/
inductive ChainError where
  | allProvidersFailed (lastError : Option String)
deriving DecidableEq, Repr

/-- The loop body of `ProviderChain.Analyze` (provider.go): try providers in
order, threading `lastErr` and the chain's own metrics; on the first success
record the request into the chain metrics and stop. Also returns how many
providers were invoked. -/
def chainAnalyzeGo (now : Int) (req : Request) :
    List PureProvider → Option String → UsageMetrics →
    Except ChainError Response × UsageMetrics × Nat
  | [], lastErr, m => (.error (.allProvidersFailed lastErr), m, 0)
  | p :: rest, _lastErr, m =>
    match p.analyze req with
    | .ok r => (.ok r, recordRequest m now p.name r.tokensUsed, 1)
    | .error e =>
      let res := chainAnalyzeGo now req rest (some e) m
      (res.1, res.2.1, res.2.2 + 1)

/-- `ProviderChain.Analyze` (provider.go). -/
def chainAnalyze (now : Int) (providers : List PureProvider) (req : Request)
    (m : UsageMetrics) : Except ChainError Response × UsageMetrics × Nat :=
  chainAnalyzeGo now req providers none m

/-- `ProviderChain.GetMetrics` (provider.go): merge every child's metrics
into a freshly created `UsageMetrics`. -/
def chainGetMetrics (now : Int) (children : List UsageMetrics) : UsageMetrics :=
  children.foldl merge (newUsageMetrics now)

/-! ## Copilot retry loop (copilot provider file) -/

/-- `copilot.ChatResponse`, truncated to its content: the retry loop treats
the parsed response as an opaque success value. -/
structure ChatResponse where
  content : String
deriving DecidableEq, Repr

/-- `strings.Contains` on the error text. -/
def goContains (s sub : String) : Bool :=
  decide (List.IsInfix sub.data s.data)

/-- `copilot.isRetryableError`: substring classification of the error text
(rate limits, timeouts, connection errors, 5xx). The `err == nil` guard is
vacuous here since only failures are classified. -/
def isRetryableError (errStr : String) : Bool :=
  goContains errStr "rate limit" || goContains errStr "429" ||
  goContains errStr "timeout" || goContains errStr "connection" ||
  goContains errStr "500" || goContains errStr "502" ||
  goContains errStr "503" || goContains errStr "504"

/-- The retry loop of `CopilotProvider.Analyze` (`for attempt := 0; attempt
<= MaxRetries; attempt++`): before every attempt after the first, wait
`RetryDelay * attempt`; stop on success or on a non-retryable error.
`results n` is the outcome of `doRequest` on attempt `n` (the network call
modelled as an oracle); the context-cancellation escape is a concurrency
effect outside this embedding and is noted, not modelled. Returns the final
outcome and the list of waits performed, in order. -/
def copilotRetryGo (retryDelay : Int) (results : Nat → Except String ChatResponse) :
    Nat → Nat → Except String ChatResponse × List Int
  | attempt, remaining =>
    let waits : List Int := if attempt = 0 then [] else [retryDelay * attempt]
    match results attempt, remaining with
    | .ok r, _ => (.ok r, waits)
    | .error e, 0 => (.error e, waits)
    | .error e, rem + 1 =>
      if isRetryableError e then
        let res := copilotRetryGo retryDelay results (attempt + 1) rem
        (res.1, waits ++ res.2)
      else
        (.error e, waits)

/-- `CopilotProvider.Analyze` retry phase: attempts `0 .. maxRetries`. -/
def copilotRetry (retryDelay : Int) (maxRetries : Nat)
    (results : Nat → Except String ChatResponse) :
    Except String ChatResponse × List Int :=
  copilotRetryGo retryDelay results 0 maxRetries

/-- Modelled from the spec: the backoff formula the specification ascribes to
the retry policy, `min(MaxDelay, InitialDelay × Multiplier^attempt)`, for
comparison with the implemented linear delay. The default `Multiplier` of
`2.0` is the exact integer 2. -/
def specBackoffDelay (initialDelay maxDelay multiplier : Int) (attempt : Nat) : Int :=
  min maxDelay (initialDelay * multiplier ^ attempt)

/-! ## Concrete values used by witnesses and counterexamples -/

/-- An all-empty response: the smallest value `calculateSize` admits
(exactly the 128-byte fixed overhead). -/
def respEmpty : Response :=
  { id := "", content := "", structuredData := none, confidence := 0
    tokensUsed := ⟨0, 0, 0, 0⟩, provider := "", duration := 0
    metadata := [], cached := false }

/-- A response whose computed size is 151 bytes (23-byte content plus the
128-byte overhead). -/
def respLarge : Response :=
  { respEmpty with content := String.mk (List.replicate 23 'a') }

/-- Request options with caching enabled and no TTL override. -/
def optsW : RequestOptions :=
  { stream := false, useCache := true, cacheTTL := 0, retryCount := 0
    retryDelay := 0, timeout := 0, responseFormat := "", includeConfidence := false
    additionalOptions := [] }

/-- A small concrete request. -/
def reqW : Request :=
  { id := "req-1", context := none, query := "test query", type := "general"
    options := optsW, maxTokens := 100, temperature := 1, metadata := [("k", "v")] }

/-- `reqW` with a different caller-assigned id and metadata. -/
def reqW2 : Request :=
  { reqW with id := "req-2", metadata := [] }

/-- A one-entry cache: `respEmpty` stored under "k" at time 0 with TTL 100. -/
def cacheW : MemoryCache :=
  (memSet (newMemoryCache 1000) 0 "k" respEmpty 100).2

/-- The entry `cacheW` holds. -/
def entryW : CacheEntry :=
  ⟨"k", respEmpty, 128, 100⟩

/-- Cache state reached by three `Set`s of key "a" (each update subtracting
the existing 128-byte size twice) followed by a `Set` of "b": the tracked
size is 0 while the two live entries really occupy 256 bytes. -/
def cacheDrifted : MemoryCache :=
  applyOps (newMemoryCache 150)
    [CacheOp.set 0 "a" respEmpty 3600, CacheOp.set 0 "a" respEmpty 3600,
     CacheOp.set 0 "a" respEmpty 3600, CacheOp.set 0 "b" respEmpty 3600]

/-- A provider that always fails. -/
def provFail : PureProvider :=
  ⟨"fail-1", fun _ => .error "boom"⟩

/-- A second provider that always fails. -/
def provFail2 : PureProvider :=
  ⟨"fail-2", fun _ => .error "bust"⟩

/-- A provider that always succeeds with `respEmpty`. -/
def provOk : PureProvider :=
  ⟨"ok", fun _ => .ok respEmpty⟩

/-- A `doRequest` oracle failing with a retryable timeout on the first three
attempts and succeeding afterwards. -/
def retryResultsW : Nat → Except String ChatResponse :=
  fun n => if n < 3 then Except.error "timeout" else Except.ok ⟨"done"⟩

/-- A `doRequest` oracle failing with a retryable timeout on every attempt. -/
def retryAllFailW : Nat → Except String ChatResponse :=
  fun _ => Except.error "timeout"

/-! ## Auxiliary lemmas about entry lists -/

/-- The keys of the entries are pairwise distinct: the list is a faithful
view of the Go `items` map plus LRU list. -/
def keysNodup (l : List CacheEntry) : Prop :=
  (l.map (fun e => e.key)).Nodup

/-- No entry of `l` carries key `k`. -/
def keyAbsent (l : List CacheEntry) (k : String) : Prop :=
  ∀ e ∈ l, e.key ≠ k

theorem findEntry_mem {c : MemoryCache} {key : String} {e : CacheEntry}
    (h : findEntry c key = some e) : e ∈ c.lru :=
  List.mem_of_find?_eq_some h

theorem findEntry_key {c : MemoryCache} {key : String} {e : CacheEntry}
    (h : findEntry c key = some e) : e.key = key := by
  have := List.find?_some h
  simpa using this

theorem findEntry_none {c : MemoryCache} {key : String}
    (h : findEntry c key = none) : keyAbsent c.lru key := by
  intro e he hk
  have := List.find?_eq_none.mp h e he
  simp [hk] at this

theorem mem_of_getLast?_eq_some {l : List CacheEntry} {e : CacheEntry}
    (h : l.getLast? = some e) : e ∈ l := by
  obtain ⟨hne, hx⟩ := List.mem_getLast?_eq_getLast (Option.mem_def.mpr h)
  rw [hx]
  exact List.getLast_mem hne

theorem sumSizes_nonneg (l : List CacheEntry) (h : ∀ e ∈ l, 0 ≤ e.size) :
    0 ≤ sumSizes l := by
  induction l with
  | nil => simp [sumSizes]
  | cons a t ih =>
    have ha := h a (by simp)
    have ht := ih (fun e he => h e (by simp [he]))
    simp only [sumSizes]
    omega

theorem filter_eq_self_of_keyAbsent (l : List CacheEntry) (k : String)
    (h : keyAbsent l k) : l.filter (fun x => x.key != k) = l :=
  List.filter_eq_self.mpr (fun e he => bne_iff_ne.mpr (h e he))

theorem keysNodup_cons {a : CacheEntry} {t : List CacheEntry}
    (h : keysNodup (a :: t)) : a.key ∉ t.map (fun e => e.key) ∧ keysNodup t := by
  have h' : (a.key :: t.map (fun e => e.key)).Nodup := by
    simpa [keysNodup] using h
  exact ⟨(List.nodup_cons.mp h').1, (List.nodup_cons.mp h').2⟩

theorem sumSizes_filter_ne (l : List CacheEntry) (e : CacheEntry)
    (hnd : keysNodup l) (he : e ∈ l) :
    sumSizes (l.filter (fun x => x.key != e.key)) = sumSizes l - e.size := by
  induction l with
  | nil => cases he
  | cons a t ih =>
    rcases List.mem_cons.mp he with rfl | hmem
    · have habs : keyAbsent t e.key := by
        intro x hx hk
        exact (keysNodup_cons hnd).1 (List.mem_map.mpr ⟨x, hx, hk⟩)
      have hdrop : (e.key != e.key) = false := by simp
      rw [List.filter_cons, hdrop]
      simp only [Bool.false_eq_true, if_false]
      rw [filter_eq_self_of_keyAbsent t e.key habs]
      simp only [sumSizes]
      omega
    · have hne : a.key ≠ e.key := by
        intro hk
        exact (keysNodup_cons hnd).1 (List.mem_map.mpr ⟨e, hmem, hk.symm⟩)
      rw [List.filter_cons, bne_iff_ne.mpr hne]
      simp only [if_true]
      simp only [sumSizes]
      rw [ih (keysNodup_cons hnd).2 hmem]
      omega

theorem keysNodup_filter (l : List CacheEntry) (p : CacheEntry → Bool)
    (h : keysNodup l) : keysNodup (l.filter p) :=
  h.sublist ((List.filter_sublist l).map (fun e => e.key))

theorem keyAbsent_sublist {l l' : List CacheEntry} {k : String}
    (hs : List.Sublist l' l) (h : keyAbsent l k) : keyAbsent l' k :=
  fun e he => h e (hs.mem he)

theorem sumSizes_filter_partition (l : List CacheEntry) (p : CacheEntry → Bool) :
    sumSizes (l.filter p) + sumSizes (l.filter (fun e => !(p e))) = sumSizes l := by
  induction l with
  | nil => simp [sumSizes]
  | cons a t ih =>
    rw [List.filter_cons, List.filter_cons]
    cases hp : p a
    · simp only [Bool.false_eq_true, if_false, Bool.not_false, if_true, sumSizes]
      omega
    · simp only [if_true, Bool.not_true, Bool.false_eq_true, if_false, sumSizes]
      omega

theorem filter_ne_getLast_eq_dropLast (l : List CacheEntry) (e : CacheEntry)
    (hnd : keysNodup l) (hlast : l.getLast? = some e) :
    l.filter (fun x => x.key != e.key) = l.dropLast := by
  induction l with
  | nil => simp at hlast
  | cons a t ih =>
    cases t with
    | nil =>
      have : a = e := by simpa using hlast
      subst this
      simp
    | cons b t' =>
      have hlast' : (b :: t').getLast? = some e := by
        simpa [List.getLast?_cons_cons] using hlast
      have hmem : e ∈ b :: t' := mem_of_getLast?_eq_some hlast'
      have hne : a.key ≠ e.key := by
        intro hk
        exact (keysNodup_cons hnd).1 (List.mem_map.mpr ⟨e, hmem, hk.symm⟩)
      rw [List.filter_cons, bne_iff_ne.mpr hne]
      simp only [if_true]
      rw [ih (keysNodup_cons hnd).2 hlast']
      simp [List.dropLast]

/-! ## The cache bookkeeping invariant -/

/-- Bookkeeping invariant maintained by every cache operation when starting
from `newMemoryCache M`: the budget is fixed, the tracked size never exceeds
it and never exceeds the exact sum of entry sizes (the double subtraction in
`Set`'s update path can only push it below), entry sizes are nonnegative and
keys are unique. -/
structure CacheInv (M : Int) (c : MemoryCache) : Prop where
  max_eq : c.maxSize = M
  size_le : c.currentSize ≤ M
  size_le_sum : c.currentSize ≤ sumSizes c.lru
  nonneg : ∀ e ∈ c.lru, 0 ≤ e.size
  nodup : keysNodup c.lru

theorem metadataSize_nonneg (l : List (String × String)) : 0 ≤ metadataSize l := by
  induction l with
  | nil => simp [metadataSize]
  | cons a t ih =>
    simp only [metadataSize]
    have h1 : (0 : Int) ≤ a.1.length := Int.ofNat_nonneg _
    have h2 : (0 : Int) ≤ a.2.length := Int.ofNat_nonneg _
    omega

theorem calculateSize_pos (r : Response) : 128 ≤ calculateSize r := by
  unfold calculateSize
  have h1 : (0 : Int) ≤ r.id.length := Int.ofNat_nonneg _
  have h2 : (0 : Int) ≤ r.content.length := Int.ofNat_nonneg _
  have h3 : (0 : Int) ≤ r.provider.length := Int.ofNat_nonneg _
  have h4 := metadataSize_nonneg r.metadata
  have h5 : (0 : Int) ≤ (match r.structuredData with
      | some d => (d.length : Int)
      | none => 0) := by
    cases r.structuredData with
    | some d => exact Int.ofNat_nonneg _
    | none => simp
  omega

theorem deleteEntry_cacheInv {M : Int} {c : MemoryCache} {e : CacheEntry}
    (h : CacheInv M c) (he : e ∈ c.lru) : CacheInv M (deleteEntry c e) := by
  refine ⟨h.max_eq, ?_, ?_, ?_, ?_⟩
  · have := h.nonneg e he
    have := h.size_le
    simp only [deleteEntry]
    omega
  · simp only [deleteEntry]
    rw [sumSizes_filter_ne c.lru e h.nodup he]
    have := h.size_le_sum
    omega
  · intro x hx
    exact h.nonneg x (List.mem_of_mem_filter hx)
  · exact keysNodup_filter c.lru _ h.nodup

theorem evictOldest_cacheInv {M : Int} {c : MemoryCache}
    (h : CacheInv M c) : CacheInv M (evictOldest c) := by
  unfold evictOldest
  cases hlast : c.lru.getLast? with
  | none => exact h
  | some e =>
    have he : e ∈ c.lru := mem_of_getLast?_eq_some hlast
    have h' := deleteEntry_cacheInv h he
    exact ⟨h'.max_eq, h'.size_le, h'.size_le_sum, h'.nonneg, h'.nodup⟩

theorem evictOldest_lru_sublist (c : MemoryCache) :
    List.Sublist (evictOldest c).lru c.lru := by
  unfold evictOldest
  cases c.lru.getLast? with
  | none => exact List.Sublist.refl _
  | some e => exact List.filter_sublist c.lru

theorem evictOldest_maxSize (c : MemoryCache) :
    (evictOldest c).maxSize = c.maxSize := by
  unfold evictOldest
  cases c.lru.getLast? with
  | none => rfl
  | some e => rfl

theorem evictOldest_length_lt (c : MemoryCache) (h : c.lru ≠ []) :
    (evictOldest c).lru.length < c.lru.length := by
  unfold evictOldest
  cases hlast : c.lru.getLast? with
  | none => exact absurd (List.getLast?_eq_none_iff.mp hlast) h
  | some e =>
    have he : e ∈ c.lru := mem_of_getLast?_eq_some hlast
    have hpe : ¬ ((e.key != e.key) = true) := by simp
    exact List.length_filter_lt_length_iff_exists.mpr ⟨e, he, hpe⟩

theorem evictLoopFuel_cacheInv {M : Int} (fuel : Nat) (c : MemoryCache)
    (size : Int) (h : CacheInv M c) : CacheInv M (evictLoopFuel fuel c size) := by
  induction fuel generalizing c with
  | zero => exact h
  | succ n ih =>
    unfold evictLoopFuel
    split
    · exact ih _ (evictOldest_cacheInv h)
    · exact h

theorem evictLoopFuel_lru_sublist (fuel : Nat) (c : MemoryCache) (size : Int) :
    List.Sublist (evictLoopFuel fuel c size).lru c.lru := by
  induction fuel generalizing c with
  | zero => exact List.Sublist.refl _
  | succ n ih =>
    unfold evictLoopFuel
    split
    · exact (ih (evictOldest c)).trans (evictOldest_lru_sublist c)
    · exact List.Sublist.refl _

theorem evictLoopFuel_maxSize (fuel : Nat) (c : MemoryCache) (size : Int) :
    (evictLoopFuel fuel c size).maxSize = c.maxSize := by
  induction fuel generalizing c with
  | zero => rfl
  | succ n ih =>
    unfold evictLoopFuel
    split
    · rw [ih (evictOldest c), evictOldest_maxSize]
    · rfl

theorem evictLoopFuel_post (fuel : Nat) (c : MemoryCache) (size : Int)
    (hfuel : c.lru.length ≤ fuel) :
    (evictLoopFuel fuel c size).currentSize + size ≤ (evictLoopFuel fuel c size).maxSize ∨
      (evictLoopFuel fuel c size).lru = [] := by
  induction fuel generalizing c with
  | zero =>
    have : c.lru = [] := List.length_eq_zero.mp (Nat.le_zero.mp hfuel)
    exact Or.inr this
  | succ n ih =>
    unfold evictLoopFuel
    split
    · rename_i hcond
      have hlt := evictOldest_length_lt c hcond.2
      exact ih (evictOldest c) (by omega)
    · rename_i hcond
      rcases not_and_or.mp hcond with h1 | h2
      · exact Or.inl (by omega)
      · exact Or.inr (not_not.mp h2)

theorem evictLoop_post (c : MemoryCache) (size : Int) :
    (evictLoop c size).currentSize + size ≤ (evictLoop c size).maxSize ∨
      (evictLoop c size).lru = [] :=
  evictLoopFuel_post c.lru.length c size (Nat.le_refl _)

theorem memSetRemoveExisting_cacheInv {M : Int} {c : MemoryCache} {key : String}
    (h : CacheInv M c) : CacheInv M (memSetRemoveExisting c key) := by
  unfold memSetRemoveExisting
  cases hfe : findEntry c key with
  | none => exact h
  | some ex =>
    have he : ex ∈ c.lru := findEntry_mem hfe
    have hs : 0 ≤ ex.size := h.nonneg ex he
    have hmid : CacheInv M { c with currentSize := c.currentSize - ex.size } := by
      refine ⟨h.max_eq, ?_, ?_, h.nonneg, h.nodup⟩
      · have := h.size_le
        simp only
        omega
      · have := h.size_le_sum
        simp only
        omega
    exact deleteEntry_cacheInv hmid he

theorem memSetRemoveExisting_keyAbsent (c : MemoryCache) (key : String) :
    keyAbsent (memSetRemoveExisting c key).lru key := by
  unfold memSetRemoveExisting
  cases hfe : findEntry c key with
  | none => exact findEntry_none hfe
  | some ex =>
    intro x hx
    have hk : ex.key = key := findEntry_key hfe
    simp only [deleteEntry] at hx
    have hxf : (x.key != ex.key) = true := (List.mem_filter.mp hx).2
    rw [← hk]
    exact bne_iff_ne.mp hxf

theorem memSet_cacheInv {M : Int} {c : MemoryCache} (h : CacheInv M c)
    (now : Int) (key : String) (resp : Response) (ttl : Int) :
    CacheInv M (memSet c now key resp ttl).2 := by
  have hszpos : (0 : Int) ≤ calculateSize resp := le_trans (by norm_num) (calculateSize_pos resp)
  simp only [memSet]
  set c2 := evictLoop (memSetRemoveExisting c key) (calculateSize resp) with hc2
  have h2 : CacheInv M c2 := by
    rw [hc2]
    exact evictLoopFuel_cacheInv _ _ _ (memSetRemoveExisting_cacheInv h)
  have habs2 : keyAbsent c2.lru key := by
    rw [hc2]
    exact keyAbsent_sublist (evictLoopFuel_lru_sublist _ _ _)
      (memSetRemoveExisting_keyAbsent c key)
  have hpost : c2.currentSize + calculateSize resp ≤ c2.maxSize ∨ c2.lru = [] := by
    rw [hc2]
    exact evictLoop_post (memSetRemoveExisting c key) (calculateSize resp)
  by_cases hbig : calculateSize resp > c2.maxSize
  · simp only [hbig, if_true]
    exact h2
  · simp only [hbig, if_false]
    refine ⟨h2.max_eq, ?_, ?_, ?_, ?_⟩
    · rcases hpost with hp | hp
      · have := h2.max_eq
        simp only
        omega
      · have hsum : sumSizes c2.lru = 0 := by
          rw [hp]
          rfl
        have hss := h2.size_le_sum
        have hmx := h2.max_eq
        simp only
        omega
    · simp only [sumSizes]
      have := h2.size_le_sum
      omega
    · intro x hx
      rcases List.mem_cons.mp hx with rfl | hx'
      · exact hszpos
      · exact h2.nonneg x hx'
    · have hnk : key ∉ c2.lru.map (fun e => e.key) := by
        intro hk
        obtain ⟨x, hx, hxk⟩ := List.mem_map.mp hk
        exact habs2 x hx hxk
      have := h2.nodup
      simp only [keysNodup, List.map_cons, List.nodup_cons]
      exact ⟨hnk, this⟩

theorem memGet_cacheInv {M : Int} {c : MemoryCache} (h : CacheInv M c)
    (now : Int) (key : String) : CacheInv M (memGet c now key).2 := by
  unfold memGet
  cases hfe : findEntry c key with
  | none => exact ⟨h.max_eq, h.size_le, h.size_le_sum, h.nonneg, h.nodup⟩
  | some e =>
    have he : e ∈ c.lru := findEntry_mem hfe
    by_cases hexp : now > e.expiresAt
    · simp only [hexp, if_true]
      have h' := deleteEntry_cacheInv h he
      exact ⟨h'.max_eq, h'.size_le, h'.size_le_sum, h'.nonneg, h'.nodup⟩
    · simp only [hexp, if_false]
      refine ⟨h.max_eq, h.size_le, ?_, ?_, ?_⟩
      · simp only [sumSizes]
        rw [sumSizes_filter_ne c.lru e h.nodup he]
        have := h.size_le_sum
        omega
      · intro x hx
        rcases List.mem_cons.mp hx with rfl | hx'
        · exact h.nonneg x he
        · exact h.nonneg x (List.mem_of_mem_filter hx')
      · have hnk : e.key ∉ (c.lru.filter (fun x => x.key != e.key)).map (fun y => y.key) := by
          intro hk
          obtain ⟨x, hx, hxk⟩ := List.mem_map.mp hk
          have := (List.mem_filter.mp hx).2
          rw [hxk] at this
          simp at this
        have hnd := keysNodup_filter c.lru (fun x => x.key != e.key) h.nodup
        simp only [keysNodup, List.map_cons, List.nodup_cons]
        exact ⟨hnk, hnd⟩

theorem memDelete_cacheInv {M : Int} {c : MemoryCache} (h : CacheInv M c)
    (key : String) : CacheInv M (memDelete c key) := by
  unfold memDelete
  cases hfe : findEntry c key with
  | none => exact h
  | some e =>
    have h' := deleteEntry_cacheInv h (findEntry_mem hfe)
    exact ⟨h'.max_eq, h'.size_le, h'.size_le_sum, h'.nonneg, h'.nodup⟩

theorem memClear_cacheInv {M : Int} {c : MemoryCache} (hM : 0 ≤ M)
    (h : CacheInv M c) : CacheInv M (memClear c) := by
  refine ⟨h.max_eq, hM, ?_, ?_, ?_⟩
  · simp [memClear, sumSizes]
  · intro x hx
    simp [memClear] at hx
  · simp [memClear, keysNodup]

theorem memCleanup_cacheInv {M : Int} {c : MemoryCache} (h : CacheInv M c)
    (now : Int) : CacheInv M (memCleanup c now).1 := by
  have hpart := sumSizes_filter_partition c.lru (fun e => decide (now > e.expiresAt))
  have hexp_nonneg : 0 ≤ sumSizes (c.lru.filter (fun e => decide (now > e.expiresAt))) := by
    apply sumSizes_nonneg
    intro x hx
    exact h.nonneg x (List.mem_of_mem_filter hx)
  refine ⟨h.max_eq, ?_, ?_, ?_, ?_⟩
  · have := h.size_le
    simp only [memCleanup]
    omega
  · simp only [memCleanup]
    have := h.size_le_sum
    omega
  · intro x hx
    simp only [memCleanup] at hx
    exact h.nonneg x (List.mem_of_mem_filter hx)
  · simp only [memCleanup]
    exact keysNodup_filter c.lru _ h.nodup

theorem applyOp_cacheInv {M : Int} {c : MemoryCache} (hM : 0 ≤ M)
    (h : CacheInv M c) (op : CacheOp) : CacheInv M (applyOp c op) := by
  cases op with
  | set now key resp ttl => exact memSet_cacheInv h now key resp ttl
  | get now key => exact memGet_cacheInv h now key
  | del key => exact memDelete_cacheInv h key
  | clear => exact memClear_cacheInv hM h
  | cleanup now => exact memCleanup_cacheInv h now

theorem newMemoryCache_cacheInv (M : Int) (hM : 0 ≤ M) :
    CacheInv M (newMemoryCache M) := by
  refine ⟨rfl, hM, ?_, ?_, ?_⟩
  · simp [newMemoryCache, sumSizes]
  · intro x hx
    simp [newMemoryCache] at hx
  · simp [newMemoryCache, keysNodup]

theorem applyOps_cacheInv {M : Int} {c : MemoryCache} (hM : 0 ≤ M)
    (h : CacheInv M c) (ops : List CacheOp) : CacheInv M (applyOps c ops) := by
  induction ops generalizing c with
  | nil => exact h
  | cons op rest ih => exact ih (applyOp_cacheInv hM h op)

/-! ## Oversize-Set and drain lemmas -/

theorem memSetRemoveExisting_maxSize (c : MemoryCache) (key : String) :
    (memSetRemoveExisting c key).maxSize = c.maxSize := by
  unfold memSetRemoveExisting
  cases findEntry c key with
  | none => rfl
  | some ex => rfl

theorem memSet_oversize (c : MemoryCache) (now : Int) (key : String)
    (resp : Response) (ttl : Int) (h : calculateSize resp > c.maxSize) :
    (memSet c now key resp ttl).1 = Except.error
        ⟨"set", s!"item size {calculateSize resp} exceeds max cache size {c.maxSize}"⟩ ∧
      keyAbsent (memSet c now key resp ttl).2.lru key := by
  simp only [memSet]
  set c2 := evictLoop (memSetRemoveExisting c key) (calculateSize resp) with hc2
  have hmax : c2.maxSize = c.maxSize := by
    rw [hc2]
    unfold evictLoop
    rw [evictLoopFuel_maxSize, memSetRemoveExisting_maxSize]
  have hbig : calculateSize resp > c2.maxSize := by
    rw [hmax]
    exact h
  rw [if_pos hbig]
  constructor
  · simp only
    rw [hmax]
  · have habs : keyAbsent c2.lru key := by
      rw [hc2]
      exact keyAbsent_sublist (evictLoopFuel_lru_sublist _ _ _)
        (memSetRemoveExisting_keyAbsent c key)
    exact habs

theorem findEntry_eq_none_of_keyAbsent (c : MemoryCache) (key : String)
    (h : keyAbsent c.lru key) : findEntry c key = none := by
  apply List.find?_eq_none.mpr
  intro e he
  simp only [beq_iff_eq]
  exact h e he

theorem memGet_none_of_keyAbsent (c : MemoryCache) (now : Int) (key : String)
    (h : keyAbsent c.lru key) : (memGet c now key).1 = none := by
  simp [memGet, findEntry_eq_none_of_keyAbsent c key h]

theorem evictLoopFuel_drain (fuel : Nat) (c : MemoryCache) (size : Int)
    (hfuel : c.lru.length ≤ fuel) (hsum : c.currentSize = sumSizes c.lru)
    (hnn : ∀ e ∈ c.lru, 0 ≤ e.size) (hnd : keysNodup c.lru)
    (hbig : size > c.maxSize) :
    (evictLoopFuel fuel c size).lru = [] ∧
      (evictLoopFuel fuel c size).currentSize = 0 := by
  induction fuel generalizing c with
  | zero =>
    have hnil : c.lru = [] := List.length_eq_zero.mp (Nat.le_zero.mp hfuel)
    refine ⟨hnil, ?_⟩
    show c.currentSize = 0
    rw [hsum, hnil]
    rfl
  | succ n ih =>
    by_cases hne : c.lru = []
    · unfold evictLoopFuel
      rw [if_neg (by simp [hne])]
      refine ⟨hne, ?_⟩
      rw [hsum, hne]
      rfl
    · have hsumnn : 0 ≤ sumSizes c.lru := sumSizes_nonneg _ hnn
      have hcond : c.currentSize + size > c.maxSize := by omega
      unfold evictLoopFuel
      rw [if_pos ⟨hcond, hne⟩]
      cases hlast : c.lru.getLast? with
      | none => exact absurd (List.getLast?_eq_none_iff.mp hlast) hne
      | some e =>
        have he := mem_of_getLast?_eq_some hlast
        have hlru : (evictOldest c).lru = c.lru.filter (fun x => x.key != e.key) := by
          unfold evictOldest
          rw [hlast]
          rfl
        have hcur : (evictOldest c).currentSize = c.currentSize - e.size := by
          unfold evictOldest
          rw [hlast]
          rfl
        have hmx : (evictOldest c).maxSize = c.maxSize := evictOldest_maxSize c
        apply ih (evictOldest c)
        · have := evictOldest_length_lt c hne
          omega
        · rw [hcur, hlru, sumSizes_filter_ne c.lru e hnd he, hsum]
        · intro x hx
          rw [hlru] at hx
          exact hnn x (List.mem_of_mem_filter hx)
        · rw [hlru]
          exact keysNodup_filter c.lru _ hnd
        · rw [hmx]
          exact hbig

/-! ## Association-map lemmas for the metrics -/

theorem pmAssocLookup_update_self (l : List (String × ProviderMetrics))
    (name : String) (f : ProviderMetrics → ProviderMetrics) :
    pmAssocLookup (updateAssocPM l name f) name = f (pmAssocLookup l name) := by
  induction l with
  | nil => simp [updateAssocPM, pmAssocLookup, List.find?]
  | cons a t ih =>
    obtain ⟨k, v⟩ := a
    by_cases hk : k = name
    · subst hk
      simp [updateAssocPM, pmAssocLookup, List.find?]
    · simp only [updateAssocPM, if_neg hk]
      have hkb : (k == name) = false := beq_eq_false_iff_ne.mpr hk
      simp only [pmAssocLookup, List.find?, hkb]
      exact ih

theorem pmAssocLookup_update_other (l : List (String × ProviderMetrics))
    (name k' : String) (f : ProviderMetrics → ProviderMetrics) (h : k' ≠ name) :
    pmAssocLookup (updateAssocPM l name f) k' = pmAssocLookup l k' := by
  induction l with
  | nil =>
    have hkb : (name == k') = false := beq_eq_false_iff_ne.mpr (Ne.symm h)
    simp [updateAssocPM, pmAssocLookup, List.find?, hkb]
  | cons a t ih =>
    obtain ⟨k, v⟩ := a
    by_cases hk : k = name
    · subst hk
      have hkb : (k == k') = false := beq_eq_false_iff_ne.mpr (fun he => h he.symm)
      simp [updateAssocPM, pmAssocLookup, List.find?, hkb]
    · simp only [updateAssocPM, if_neg hk]
      by_cases hk2 : k = k'
      · subst hk2
        simp [pmAssocLookup, List.find?]
      · have hkb : (k == k') = false := beq_eq_false_iff_ne.mpr hk2
        simp only [pmAssocLookup, List.find?, hkb]
        exact ih

theorem pmAssocLookup_absent (l : List (String × ProviderMetrics))
    (name : String) (h : name ∉ l.map Prod.fst) :
    pmAssocLookup l name = pmDefault name := by
  induction l with
  | nil => simp [pmAssocLookup, List.find?]
  | cons a t ih =>
    obtain ⟨k, v⟩ := a
    have hk : k ≠ name := by
      intro he
      exact h (by simp [he])
    have hkb : (k == name) = false := beq_eq_false_iff_ne.mpr hk
    simp only [pmAssocLookup, List.find?, hkb]
    exact ih (fun hm => h (by simp; right; simpa using hm))

theorem pmAddCounters_default (x : ProviderMetrics) (n : String) :
    pmAddCounters x (pmDefault n) = x := by
  simp [pmAddCounters, pmDefault]

theorem pmAssocLookup_merge_foldl (entries : List (String × ProviderMetrics))
    (init : List (String × ProviderMetrics)) (name : String)
    (hnd : (entries.map Prod.fst).Nodup) :
    pmAssocLookup (entries.foldl
        (fun acc p => updateAssocPM acc p.1 (fun pm => pmAddCounters pm p.2)) init) name =
      pmAddCounters (pmAssocLookup init name) (pmAssocLookup entries name) := by
  induction entries generalizing init with
  | nil => simp [pmAssocLookup, List.find?, pmAddCounters_default]
  | cons a t ih =>
    obtain ⟨k, v⟩ := a
    have hnd1 : (k :: t.map Prod.fst).Nodup := by
      simpa only [List.map_cons] using hnd
    have hk_not : k ∉ t.map Prod.fst := (List.nodup_cons.mp hnd1).1
    have hnd' : (t.map Prod.fst).Nodup := (List.nodup_cons.mp hnd1).2
    simp only [List.foldl_cons]
    rw [ih _ hnd']
    by_cases hk : name = k
    · subst hk
      rw [pmAssocLookup_update_self, pmAssocLookup_absent t name hk_not]
      have hhead : pmAssocLookup ((name, v) :: t) name = v := by
        simp [pmAssocLookup, List.find?]
      rw [hhead, pmAddCounters_default]
    · rw [pmAssocLookup_update_other _ _ _ _ hk]
      have hkb : (k == name) = false := beq_eq_false_iff_ne.mpr (fun he => hk he.symm)
      have hhead : pmAssocLookup ((k, v) :: t) name = pmAssocLookup t name := by
        simp [pmAssocLookup, List.find?, hkb]
      rw [hhead]

theorem countLookup_bump_self (l : List (String × Int)) (k : String) (v : Int) :
    countLookup (bumpAssoc l k v) k = countLookup l k + v := by
  induction l with
  | nil => simp [bumpAssoc, countLookup, List.find?]
  | cons a t ih =>
    obtain ⟨k0, c0⟩ := a
    by_cases hk : k0 = k
    · subst hk
      simp [bumpAssoc, countLookup, List.find?]
    · have hkb : (k0 == k) = false := beq_eq_false_iff_ne.mpr hk
      simp only [bumpAssoc, if_neg hk, countLookup, List.find?, hkb]
      exact ih

theorem countLookup_bump_other (l : List (String × Int)) (k k' : String) (v : Int)
    (h : k' ≠ k) : countLookup (bumpAssoc l k v) k' = countLookup l k' := by
  induction l with
  | nil =>
    have hkb : (k == k') = false := beq_eq_false_iff_ne.mpr (Ne.symm h)
    simp [bumpAssoc, countLookup, List.find?, hkb]
  | cons a t ih =>
    obtain ⟨k0, c0⟩ := a
    by_cases hk : k0 = k
    · subst hk
      have hkb : (k0 == k') = false := beq_eq_false_iff_ne.mpr (fun he => h he.symm)
      simp [bumpAssoc, countLookup, List.find?, hkb]
    · simp only [bumpAssoc, if_neg hk]
      by_cases hk2 : k0 = k'
      · subst hk2
        simp [countLookup, List.find?]
      · have hkb : (k0 == k') = false := beq_eq_false_iff_ne.mpr hk2
        simp only [countLookup, List.find?, hkb]
        exact ih

theorem countLookup_absent (l : List (String × Int)) (k : String)
    (h : k ∉ l.map Prod.fst) : countLookup l k = 0 := by
  induction l with
  | nil => simp [countLookup, List.find?]
  | cons a t ih =>
    obtain ⟨k0, c0⟩ := a
    have hk : k0 ≠ k := by
      intro he
      exact h (by simp [he])
    have hkb : (k0 == k) = false := beq_eq_false_iff_ne.mpr hk
    simp only [countLookup, List.find?, hkb]
    exact ih (fun hm => h (by simp; right; simpa using hm))

theorem countLookup_merge_foldl (entries : List (String × Int))
    (init : List (String × Int)) (k : String)
    (hnd : (entries.map Prod.fst).Nodup) :
    countLookup (entries.foldl (fun acc p => bumpAssoc acc p.1 p.2) init) k =
      countLookup init k + countLookup entries k := by
  induction entries generalizing init with
  | nil => simp [countLookup, List.find?]
  | cons a t ih =>
    obtain ⟨k0, v0⟩ := a
    have hnd1 : (k0 :: t.map Prod.fst).Nodup := by
      simpa only [List.map_cons] using hnd
    have hk_not : k0 ∉ t.map Prod.fst := (List.nodup_cons.mp hnd1).1
    have hnd' : (t.map Prod.fst).Nodup := (List.nodup_cons.mp hnd1).2
    simp only [List.foldl_cons]
    rw [ih _ hnd']
    by_cases hk : k = k0
    · subst hk
      rw [countLookup_bump_self, countLookup_absent t k hk_not]
      have hhead : countLookup ((k, v0) :: t) k = v0 := by
        simp [countLookup, List.find?]
      rw [hhead]
      omega
    · rw [countLookup_bump_other _ _ _ _ hk]
      have hkb : (k0 == k) = false := beq_eq_false_iff_ne.mpr (fun he => hk he.symm)
      have hhead : countLookup ((k0, v0) :: t) k = countLookup t k := by
        simp [countLookup, List.find?, hkb]
      rw [hhead]

/-! ## Chain lemmas -/

theorem chainAnalyzeGo_first_ok (now : Int) (req : Request) (r : Response) :
    ∀ (ps₁ : List PureProvider) (p : PureProvider) (ps₂ : List PureProvider)
      (lastErr : Option String) (m : UsageMetrics),
      (∀ q ∈ ps₁, ∃ e, q.analyze req = Except.error e) →
      p.analyze req = Except.ok r →
      chainAnalyzeGo now req (ps₁ ++ p :: ps₂) lastErr m =
        (Except.ok r, recordRequest m now p.name r.tokensUsed, ps₁.length + 1) := by
  intro ps₁
  induction ps₁ with
  | nil =>
    intro p ps₂ lastErr m _ hok
    simp [chainAnalyzeGo, hok]
  | cons q t ih =>
    intro p ps₂ lastErr m hfail hok
    obtain ⟨e, he⟩ := hfail q (by simp)
    have hrest : ∀ x ∈ t, ∃ e', x.analyze req = Except.error e' :=
      fun x hx => hfail x (by simp [hx])
    simp only [List.cons_append, chainAnalyzeGo, he, List.append_eq]
    rw [ih p ps₂ (some e) m hrest hok]
    simp [List.length_cons]

theorem chainAnalyzeGo_all_fail (now : Int) (req : Request) :
    ∀ (ps : List PureProvider) (q : PureProvider) (e : String)
      (lastErr : Option String) (m : UsageMetrics),
      (∀ x ∈ ps, ∃ er, x.analyze req = Except.error er) →
      ps.getLast? = some q → q.analyze req = Except.error e →
      (chainAnalyzeGo now req ps lastErr m).1 =
        Except.error (ChainError.allProvidersFailed (some e)) := by
  intro ps
  induction ps with
  | nil =>
    intro q e lastErr m _ hlast _
    simp at hlast
  | cons a t ih =>
    intro q e lastErr m hfail hlast hqe
    cases t with
    | nil =>
      have hqa : a = q := by simpa using hlast
      subst hqa
      simp [chainAnalyzeGo, hqe]
    | cons b t' =>
      have hlast' : (b :: t').getLast? = some q := by
        simpa [List.getLast?_cons_cons] using hlast
      obtain ⟨ea, hea⟩ := hfail a (by simp)
      have hrest : ∀ x ∈ b :: t', ∃ er, x.analyze req = Except.error er :=
        fun x hx => hfail x (by simp [hx])
      simp only [chainAnalyzeGo, hea]
      exact ih q e (some ea) m hrest hlast' hqe

/-! ## C1 -/

/-- C1: `ProviderChain.Analyze` tries providers in list order; the first
provider whose call succeeds has its response returned (and its usage
recorded) without any later provider being invoked — the number of invoked
providers is exactly the position of the first success; if every provider
fails, the chain returns `ErrAllProvidersFailed` wrapping the last
provider's error. -/
theorem chain_first_success_or_all_fail :
    (∀ (now : Int) (req : Request) (m : UsageMetrics) (ps₁ : List PureProvider)
        (p : PureProvider) (ps₂ : List PureProvider) (r : Response),
      (∀ q ∈ ps₁, ∃ e, q.analyze req = Except.error e) →
      p.analyze req = Except.ok r →
      (chainAnalyze now (ps₁ ++ p :: ps₂) req m).1 = Except.ok r ∧
        (chainAnalyze now (ps₁ ++ p :: ps₂) req m).2.2 = ps₁.length + 1) ∧
    (∀ (now : Int) (req : Request) (m : UsageMetrics) (ps : List PureProvider)
        (q : PureProvider) (e : String),
      (∀ x ∈ ps, ∃ er, x.analyze req = Except.error er) →
      ps.getLast? = some q → q.analyze req = Except.error e →
      (chainAnalyze now ps req m).1 =
        Except.error (ChainError.allProvidersFailed (some e))) := by
  constructor
  · intro now req m ps₁ p ps₂ r hfail hok
    unfold chainAnalyze
    rw [chainAnalyzeGo_first_ok now req r ps₁ p ps₂ none m hfail hok]
    exact ⟨rfl, rfl⟩
  · intro now req m ps q e hfail hlast hqe
    exact chainAnalyzeGo_all_fail now req ps q e none m hfail hlast hqe

/-- C1 witness: a chain [fail, ok, fail] returns the success of the second
provider having invoked exactly two providers; a chain [fail, fail] returns
the all-providers-failed error wrapping the last provider's message. -/
theorem chain_first_success_or_all_fail_witness :
    (chainAnalyze 0 [provFail, provOk, provFail2] reqW (newUsageMetrics 0)).1 =
        Except.ok respEmpty ∧
      (chainAnalyze 0 [provFail, provOk, provFail2] reqW (newUsageMetrics 0)).2.2 = 2 ∧
      (chainAnalyze 0 [provFail, provFail2] reqW (newUsageMetrics 0)).1 =
        Except.error (ChainError.allProvidersFailed (some "bust")) := by
  have hfail1 : ∀ q ∈ [provFail], ∃ e, q.analyze reqW = Except.error e := by
    intro q hq
    have : q = provFail := by simpa using hq
    subst this
    exact ⟨"boom", rfl⟩
  have h1 := chain_first_success_or_all_fail.1 0 reqW (newUsageMetrics 0)
    [provFail] provOk [provFail2] respEmpty hfail1 rfl
  have hfail2 : ∀ x ∈ [provFail, provFail2], ∃ er, x.analyze reqW = Except.error er := by
    intro x hx
    rcases (by simpa using hx : x = provFail ∨ x = provFail2) with h | h
    · subst h
      exact ⟨"boom", rfl⟩
    · subst h
      exact ⟨"bust", rfl⟩
  have h2 := chain_first_success_or_all_fail.2 0 reqW (newUsageMetrics 0)
    [provFail, provFail2] provFail2 "bust" hfail2 rfl rfl
  exact ⟨h1.1, h1.2, h2⟩

/-! ## C2 -/

/-- C2: starting from a cache constructed with nonnegative byte budget `M`,
no sequence of `Set`/`Get`/`Delete`/`Clear`/`CleanupExpired` operations ever
drives the tracked size `Size()` above `M`; and when an insertion must make
room, eviction removes the least-recently-used entry (the back of the LRU
order) first. -/
theorem cache_size_never_exceeds_budget (M : Int) (hM : 0 ≤ M) :
    (∀ ops : List CacheOp, memSize (applyOps (newMemoryCache M) ops) ≤ M) ∧
    (∀ c : MemoryCache, keysNodup c.lru → c.lru ≠ [] →
      (evictOldest c).lru = c.lru.dropLast) := by
  constructor
  · intro ops
    exact (applyOps_cacheInv hM (newMemoryCache_cacheInv M hM) ops).size_le
  · intro c hnd hne
    cases hlast : c.lru.getLast? with
    | none => exact absurd (List.getLast?_eq_none_iff.mp hlast) hne
    | some e =>
      have hlru : (evictOldest c).lru = c.lru.filter (fun x => x.key != e.key) := by
        unfold evictOldest
        rw [hlast]
        rfl
      rw [hlru]
      exact filter_ne_getLast_eq_dropLast c.lru e hnd hlast

/-- C2 witness: three 128-byte inserts into a 300-byte cache (forcing
eviction) leave the tracked size within budget. -/
theorem cache_size_never_exceeds_budget_witness :
    (0 : Int) ≤ 300 ∧
      memSize (applyOps (newMemoryCache 300)
        [CacheOp.set 0 "a" respEmpty 3600, CacheOp.set 1 "b" respEmpty 3600,
         CacheOp.set 2 "c" respEmpty 3600]) ≤ 300 :=
  ⟨by norm_num, (cache_size_never_exceeds_budget 300 (by norm_num)).1 _⟩

theorem memGet_maxSize (c : MemoryCache) (now : Int) (key : String) :
    (memGet c now key).2.maxSize = c.maxSize := by
  cases hfe : findEntry c key with
  | none => simp [memGet, hfe]
  | some e =>
    by_cases hexp : now > e.expiresAt
    · simp [memGet, hfe, hexp, deleteEntry]
    · simp [memGet, hfe, hexp]

/-! ## C3 -/

/-- C3: `Get` of a present key. Strictly after the entry's absolute expiry it
is deleted, a miss is recorded and not-found is returned — no entry is ever
returned past its expiry. At or before expiry, `Get` returns a copy of the
stored response with `cached = true` set on the copy, while the stored entry
itself (its response and `cached` flag included) is unchanged and promoted to
most-recently-used, and a hit is recorded. -/
theorem memGet_present_spec (c : MemoryCache) (now : Int) (key : String)
    (e : CacheEntry) (hfind : findEntry c key = some e) :
    (now > e.expiresAt →
      (memGet c now key).1 = none ∧
      findEntry (memGet c now key).2 key = none ∧
      (memGet c now key).2.stats.misses = c.stats.misses + 1) ∧
    (¬ now > e.expiresAt →
      (memGet c now key).1 = some { e.response with cached := true } ∧
      (memGet c now key).2.lru.head? = some e ∧
      (memGet c now key).2.stats.hits = c.stats.hits + 1) := by
  have hek : e.key = key := findEntry_key hfind
  constructor
  · intro hexp
    have hred : memGet c now key =
        (none,
         { deleteEntry c e with
           stats := { (deleteEntry c e).stats with
                      misses := (deleteEntry c e).stats.misses + 1 } }) := by
      simp only [memGet, hfind]
      rw [if_pos hexp]
    rw [hred]
    refine ⟨rfl, ?_, rfl⟩
    apply findEntry_eq_none_of_keyAbsent
    intro x hx
    have hx' : x ∈ c.lru ∧ ¬ x.key = e.key := by simpa [deleteEntry] using hx
    rw [← hek]
    exact hx'.2
  · intro hexp
    have hred : memGet c now key =
        (some { e.response with cached := true },
         { c with
           lru := e :: c.lru.filter (fun x => x.key != e.key)
           stats := { c.stats with hits := c.stats.hits + 1 } }) := by
      simp only [memGet, hfind]
      rw [if_neg hexp]
    rw [hred]
    exact ⟨rfl, rfl, rfl⟩

/-- C3 witness: in the one-entry cache `cacheW` (expiry instant 100), a `Get`
at time 200 misses while a `Get` at time 50 returns the stored response
marked `cached`. -/
theorem memGet_present_spec_witness :
    (memGet cacheW 200 "k").1 = none ∧
      (memGet cacheW 50 "k").1 = some { respEmpty with cached := true } := by
  have h1 := (memGet_present_spec cacheW 200 "k" entryW (by decide)).1 (by decide)
  have h2 := (memGet_present_spec cacheW 50 "k" entryW (by decide)).2 (by decide)
  exact ⟨h1.1, h2.1⟩

/-! ## C5 -/

/-- C5: `GenerateCacheKey` depends only on {query, type, maxTokens,
temperature, context}: two requests that agree on those five fields receive
identical keys no matter how their `id` or `metadata` differ. -/
theorem generateCacheKey_ignores_id_metadata (r1 r2 : Request)
    (hq : r1.query = r2.query) (ht : r1.type = r2.type)
    (hm : r1.maxTokens = r2.maxTokens) (htp : r1.temperature = r2.temperature)
    (hc : r1.context = r2.context) :
    generateCacheKey r1 = generateCacheKey r2 := by
  unfold generateCacheKey keyData
  rw [hq, ht, hm, htp, hc]

/-- C5 witness: `reqW` and `reqW2` differ in id and metadata yet map to the
same cache key. -/
theorem generateCacheKey_ignores_id_metadata_witness :
    reqW.id ≠ reqW2.id ∧ reqW.metadata ≠ reqW2.metadata ∧
      generateCacheKey reqW = generateCacheKey reqW2 :=
  ⟨by decide, by decide,
    generateCacheKey_ignores_id_metadata reqW reqW2 rfl rfl rfl rfl rfl⟩

/-! ## C6 -/

/-- C6: a `Set` whose computed entry size alone exceeds the configured
maximum returns the cache-capacity error and does not store the response: a
subsequent `Get` of that key, at any time, returns not-found. -/
theorem memSet_oversize_rejected (c : MemoryCache) (now : Int) (key : String)
    (resp : Response) (ttl : Int) (h : calculateSize resp > c.maxSize) :
    (memSet c now key resp ttl).1 = Except.error
        ⟨"set", s!"item size {calculateSize resp} exceeds max cache size {c.maxSize}"⟩ ∧
      ∀ later : Int, (memGet (memSet c now key resp ttl).2 later key).1 = none := by
  obtain ⟨herr, habs⟩ := memSet_oversize c now key resp ttl h
  exact ⟨herr, fun later => memGet_none_of_keyAbsent _ later key habs⟩

/-- C6 witness: a 128-byte response cannot enter a 10-byte cache; the `Set`
errors and the following `Get` misses. -/
theorem memSet_oversize_rejected_witness :
    calculateSize respEmpty > (newMemoryCache 10).maxSize ∧
      (memSet (newMemoryCache 10) 0 "k" respEmpty 60).1 = Except.error
        ⟨"set", "item size 128 exceeds max cache size 10"⟩ ∧
      (memGet (memSet (newMemoryCache 10) 0 "k" respEmpty 60).2 99 "k").1 = none := by
  have h := memSet_oversize_rejected (newMemoryCache 10) 0 "k" respEmpty 60 (by decide)
  exact ⟨by decide, h.1, h.2 99⟩

/-! ## C7 -/

/-- C7: with caching requested and a cache miss, a successful provider call
makes `CachedProvider.Analyze` return the fresh response with no error even
when the subsequent cache `Set` fails; in the oversize case the key is still
absent from the cache afterwards — a cache-store failure never fails the
request. -/
theorem cachedAnalyze_store_failure_harmless
    (pf : Request → Except String Response) (ttl : Int) (cache : MemoryCache)
    (now : Int) (req : Request) (resp : Response)
    (huse : req.options.useCache = true)
    (hmiss : (memGet cache now (generateCacheKey req)).1 = none)
    (hok : pf req = Except.ok resp) :
    (cachedAnalyze pf ttl cache now req).1 = Except.ok resp ∧
      (calculateSize resp > cache.maxSize →
        findEntry (cachedAnalyze pf ttl cache now req).2 (generateCacheKey req) = none) := by
  rcases hmg : memGet cache now (generateCacheKey req) with ⟨o, c'⟩
  have ho : o = none := by
    rw [hmg] at hmiss
    exact hmiss
  subst ho
  have hmax : c'.maxSize = cache.maxSize := by
    have := memGet_maxSize cache now (generateCacheKey req)
    rw [hmg] at this
    exact this
  have hred : cachedAnalyze pf ttl cache now req =
      (Except.ok resp,
       (memSet c' now (generateCacheKey req) resp
         (if req.options.cacheTTL > 0 then req.options.cacheTTL else ttl)).2) := by
    simp only [cachedAnalyze, huse, hmg, hok, if_true]
  rw [hred]
  refine ⟨rfl, ?_⟩
  intro hbig
  have h2 := memSet_oversize c' now (generateCacheKey req) resp
    (if req.options.cacheTTL > 0 then req.options.cacheTTL else ttl)
    (by rw [hmax]; exact hbig)
  exact findEntry_eq_none_of_keyAbsent _ _ h2.2

/-- C7 witness: wrapping an always-succeeding provider around a 10-byte cache
(too small for any entry), the request still succeeds and nothing is cached. -/
theorem cachedAnalyze_store_failure_harmless_witness :
    (cachedAnalyze (fun _ => Except.ok respEmpty) 3600 (newMemoryCache 10) 0 reqW).1 =
        Except.ok respEmpty ∧
      findEntry (cachedAnalyze (fun _ => Except.ok respEmpty) 3600 (newMemoryCache 10)
          0 reqW).2 (generateCacheKey reqW) = none := by
  have h := cachedAnalyze_store_failure_harmless (fun _ => Except.ok respEmpty) 3600
    (newMemoryCache 10) 0 reqW respEmpty rfl rfl rfl
  exact ⟨h.1, h.2 (by decide)⟩

/-! ## C8 -/

/-- C8: in the copilot success path `RecordRequest` runs before
`RecordLatency`, so the latency sample is folded as
`newAvg = (oldAvg*n + latest)/(n+1)` where `n` is the successful-request
count observed at the moment the sample is recorded — a count that already
includes the request being recorded (`n` = prior count + 1) — identically on
the aggregate metrics and the per-provider sub-record. -/
theorem copilot_success_latency_fold (m : UsageMetrics) (now : Int)
    (provider : String) (tokens : TokenUsage) (d : Int)
    (h1 : 0 ≤ m.successfulRequests)
    (h2 : 0 ≤ (pmLookup m provider).successfulRequests) :
    (copilotRecordSuccess m now provider tokens d).averageLatency =
      (m.averageLatency * (m.successfulRequests + 1) + d).tdiv
        (m.successfulRequests + 1 + 1) ∧
    (pmLookup (copilotRecordSuccess m now provider tokens d) provider).averageLatency =
      ((pmLookup m provider).averageLatency * ((pmLookup m provider).successfulRequests + 1) + d).tdiv
        ((pmLookup m provider).successfulRequests + 1 + 1) := by
  constructor
  · simp only [copilotRecordSuccess, recordLatency, recordRequest]
    rw [if_pos (by omega)]
  · simp only [copilotRecordSuccess, recordLatency, recordRequest, pmLookup]
    rw [pmAssocLookup_update_self, pmAssocLookup_update_self]
    simp only
    rw [if_pos (by have := h2; simp only [pmLookup] at this; omega)]

/-- C8 witness: recording the first success (latency 10) on fresh metrics
yields the code's average `(0*1 + 10) / 2 = 5` on the aggregate. -/
theorem copilot_success_latency_fold_witness :
    (copilotRecordSuccess (newUsageMetrics 0) 7 "github-copilot" ⟨1, 2, 3, 4⟩ 10).averageLatency =
      ((newUsageMetrics 0).averageLatency * ((newUsageMetrics 0).successfulRequests + 1) + 10).tdiv
        ((newUsageMetrics 0).successfulRequests + 1 + 1) :=
  (copilot_success_latency_fold (newUsageMetrics 0) 7 "github-copilot" ⟨1, 2, 3, 4⟩ 10
    (by decide) (by decide)).1

/-! ## C9 -/

/-- C9 counterexample: in `cacheDrifted` (reached by three `Set`s of "a" —
each update subtracting the existing 128-byte size twice — and a `Set` of
"b") the tracked size is 0 while entries "b", "a" really occupy 256 bytes.
The oversize `Set` of "c" (151 > 150) evicts "a", reaches tracked size
-128, stops because -128 + 151 ≤ 150, and returns the capacity error with
entry "b" still cached: `Count()` is 1 and `Size()` is -128, not 0 and 0. -/
theorem memSet_oversize_not_clearing_cex :
    cacheDrifted.lru ≠ [] ∧
      calculateSize respLarge > cacheDrifted.maxSize ∧
      (memSet cacheDrifted 0 "c" respLarge 3600).1 = Except.error
        ⟨"set", "item size 151 exceeds max cache size 150"⟩ ∧
      memCount (memSet cacheDrifted 0 "c" respLarge 3600).2 = 1 ∧
      memSize (memSet cacheDrifted 0 "c" respLarge 3600).2 = -128 :=
  ⟨by decide, by decide, rfl, by decide, by decide⟩

/-- C9 amended: provided the cache's tracked size is exact (`currentSize`
equals the sum of entry sizes, i.e. no earlier update-in-place drift), entry
sizes are nonnegative, keys are unique and the key being set is not already
present, a `Set` whose entry alone exceeds the budget evicts every
previously cached entry before failing: afterwards the capacity error is
returned, `Count()` is 0 and `Size()` is 0. -/
theorem memSet_oversize_clears_exact_cache (c : MemoryCache) (now : Int)
    (key : String) (resp : Response) (ttl : Int)
    (_hne : c.lru ≠ [])
    (hsum : c.currentSize = sumSizes c.lru)
    (hnn : ∀ e ∈ c.lru, 0 ≤ e.size)
    (hnd : keysNodup c.lru)
    (habs : findEntry c key = none)
    (hbig : calculateSize resp > c.maxSize) :
    (∃ r, (memSet c now key resp ttl).1 = Except.error r) ∧
      memCount (memSet c now key resp ttl).2 = 0 ∧
      memSize (memSet c now key resp ttl).2 = 0 := by
  have hrm : memSetRemoveExisting c key = c := by
    unfold memSetRemoveExisting
    rw [habs]
  have hdrain := evictLoopFuel_drain c.lru.length c (calculateSize resp)
    (Nat.le_refl _) hsum hnn hnd hbig
  simp only [memSet]
  set c2 := evictLoop (memSetRemoveExisting c key) (calculateSize resp) with hc2
  have hc2' : c2 = evictLoopFuel c.lru.length c (calculateSize resp) := by
    rw [hc2, hrm]
    rfl
  have hlru2 : c2.lru = [] := by
    rw [hc2']
    exact hdrain.1
  have hcur2 : c2.currentSize = 0 := by
    rw [hc2']
    exact hdrain.2
  have hmax2 : c2.maxSize = c.maxSize := by
    rw [hc2]
    unfold evictLoop
    rw [evictLoopFuel_maxSize, memSetRemoveExisting_maxSize]
  have hbig2 : calculateSize resp > c2.maxSize := by
    rw [hmax2]
    exact hbig
  rw [if_pos hbig2]
  refine ⟨⟨_, rfl⟩, ?_, ?_⟩
  · simp [memCount, hlru2]
  · simp [memSize, hcur2]

/-- C9 amended witness: one exact 128-byte entry in a 150-byte cache; the
failed oversize `Set` (151 > 150) leaves the cache empty with size 0. -/
theorem memSet_oversize_clears_exact_cache_witness :
    (∃ r, (memSet (memSet (newMemoryCache 150) 0 "a" respEmpty 100).2
        0 "big" respLarge 3600).1 = Except.error r) ∧
      memCount (memSet (memSet (newMemoryCache 150) 0 "a" respEmpty 100).2
        0 "big" respLarge 3600).2 = 0 ∧
      memSize (memSet (memSet (newMemoryCache 150) 0 "a" respEmpty 100).2
        0 "big" respLarge 3600).2 = 0 :=
  memSet_oversize_clears_exact_cache _ 0 "big" respLarge 3600
    (by decide) (by decide) (by decide)
    (by simp only [keysNodup]; decide) (by decide) (by decide)

/-! ## C10 -/

/-- C10: `Merge` adds the other instance's counters — scalar totals and,
pointwise per key, the per-provider, per-type and per-error counts — into
the receiver, but leaves the receiver's `AverageLatency`, `StartTime` and
`LastRequestTime` unchanged; consequently the freshly merged metrics that
`ProviderChain.GetMetrics` returns always report `AverageLatency = 0`
whatever average latencies the children carry. -/
theorem merge_frame_and_chain_avg_zero :
    (∀ m other : UsageMetrics,
      (merge m other).averageLatency = m.averageLatency ∧
      (merge m other).startTime = m.startTime ∧
      (merge m other).lastRequestTime = m.lastRequestTime ∧
      (merge m other).totalRequests = m.totalRequests + other.totalRequests ∧
      (merge m other).successfulRequests = m.successfulRequests + other.successfulRequests ∧
      (merge m other).failedRequests = m.failedRequests + other.failedRequests ∧
      (merge m other).cachedResponses = m.cachedResponses + other.cachedResponses ∧
      (merge m other).totalTokensUsed = m.totalTokensUsed + other.totalTokensUsed ∧
      (merge m other).totalCost = m.totalCost + other.totalCost) ∧
    (∀ (m other : UsageMetrics) (name : String),
      (other.providerMetrics.map Prod.fst).Nodup →
      pmLookup (merge m other) name =
        pmAddCounters (pmLookup m name) (pmLookup other name)) ∧
    (∀ (m other : UsageMetrics) (t : String),
      (other.requestsByType.map Prod.fst).Nodup →
      countLookup (merge m other).requestsByType t =
        countLookup m.requestsByType t + countLookup other.requestsByType t) ∧
    (∀ (m other : UsageMetrics) (t : String),
      (other.errorsByType.map Prod.fst).Nodup →
      countLookup (merge m other).errorsByType t =
        countLookup m.errorsByType t + countLookup other.errorsByType t) ∧
    (∀ (now : Int) (children : List UsageMetrics),
      (chainGetMetrics now children).averageLatency = 0) := by
  refine ⟨?_, ?_, ?_, ?_, ?_⟩
  · intro m other
    exact ⟨rfl, rfl, rfl, rfl, rfl, rfl, rfl, rfl, rfl⟩
  · intro m other name hnd
    simp only [merge, pmLookup]
    exact pmAssocLookup_merge_foldl other.providerMetrics m.providerMetrics name hnd
  · intro m other t hnd
    simp only [merge]
    exact countLookup_merge_foldl other.requestsByType m.requestsByType t hnd
  · intro m other t hnd
    simp only [merge]
    exact countLookup_merge_foldl other.errorsByType m.errorsByType t hnd
  · intro now children
    have hfold : ∀ (l : List UsageMetrics) (acc : UsageMetrics),
        acc.averageLatency = 0 → (l.foldl merge acc).averageLatency = 0 := by
      intro l
      induction l with
      | nil =>
        intro acc h
        simpa using h
      | cons x t ih =>
        intro acc h
        simp only [List.foldl_cons]
        exact ih (merge acc x) h
    exact hfold children (newUsageMetrics now) rfl

/-- C10 witness: merging two one-provider metrics records adds the "p1"
sub-record counters, and a chain snapshot over a child with recorded
requests reports zero average latency. -/
theorem merge_frame_and_chain_avg_zero_witness :
    pmLookup (merge (recordRequest (newUsageMetrics 0) 5 "p1" ⟨1, 2, 3, 4⟩)
        (recordRequest (newUsageMetrics 0) 6 "p1" ⟨2, 3, 5, 7⟩)) "p1" =
      pmAddCounters
        (pmLookup (recordRequest (newUsageMetrics 0) 5 "p1" ⟨1, 2, 3, 4⟩) "p1")
        (pmLookup (recordRequest (newUsageMetrics 0) 6 "p1" ⟨2, 3, 5, 7⟩) "p1") ∧
    (chainGetMetrics 0 [recordRequest (newUsageMetrics 0) 5 "p1" ⟨1, 2, 3, 4⟩]).averageLatency = 0 :=
  ⟨merge_frame_and_chain_avg_zero.2.1 _ _ "p1" (by decide),
   merge_frame_and_chain_avg_zero.2.2.2.2 0 _⟩

/-! ## Copilot retry lemmas -/

theorem copilotRetryGo_zero_step (retryDelay : Int)
    (results : Nat → Except String ChatResponse) (mr : Nat) :
    copilotRetryGo retryDelay results 0 (mr + 1) =
      match results 0 with
      | .ok r => (.ok r, [])
      | .error e =>
        if isRetryableError e then copilotRetryGo retryDelay results 1 mr
        else (.error e, []) := by
  conv_lhs => unfold copilotRetryGo
  cases hres : results 0 with
  | ok r => simp [hres]
  | error e =>
    by_cases hr : isRetryableError e = true
    · simp [hres, hr]
    · simp [hres, hr]

theorem copilotRetryGo_delays (retryDelay : Int)
    (results : Nat → Except String ChatResponse) :
    ∀ (remaining attempt : Nat), 1 ≤ attempt →
      ∃ k, 1 ≤ k ∧ k ≤ remaining + 1 ∧
        (copilotRetryGo retryDelay results attempt remaining).2 =
          (List.range' attempt k).map (fun j : Nat => retryDelay * (j : Int)) := by
  intro remaining
  induction remaining with
  | zero =>
    intro attempt ha
    have hne : ¬ attempt = 0 := by omega
    refine ⟨1, le_refl 1, by omega, ?_⟩
    unfold copilotRetryGo
    cases hres : results attempt with
    | ok r => simp [hne, List.range']
    | error e => simp [hne, List.range']
  | succ n ih =>
    intro attempt ha
    have hne : ¬ attempt = 0 := by omega
    cases hres : results attempt with
    | ok r =>
      refine ⟨1, le_refl 1, by omega, ?_⟩
      unfold copilotRetryGo
      simp [hne, hres, List.range']
    | error e =>
      by_cases hr : isRetryableError e = true
      · obtain ⟨k, hk1, hk2, hk3⟩ := ih (attempt + 1) (by omega)
        refine ⟨k + 1, by omega, by omega, ?_⟩
        unfold copilotRetryGo
        simp only [hne, if_false, hres, hr, if_true]
        rw [hk3, List.range'_succ]
        simp
      · refine ⟨1, le_refl 1, by omega, ?_⟩
        unfold copilotRetryGo
        simp [hne, hres, hr, List.range']

theorem copilotRetryGo_all_retryable (retryDelay : Int)
    (results : Nat → Except String ChatResponse) :
    ∀ (remaining attempt : Nat),
      (∀ n, attempt ≤ n → n ≤ attempt + remaining →
        ∃ e, results n = Except.error e ∧ isRetryableError e = true) →
      (copilotRetryGo retryDelay results attempt remaining).2.length =
        remaining + (if attempt = 0 then 0 else 1) := by
  intro remaining
  induction remaining with
  | zero =>
    intro attempt h
    obtain ⟨e, he, hr⟩ := h attempt (le_refl _) (by omega)
    unfold copilotRetryGo
    rcases Nat.eq_zero_or_pos attempt with ha | ha
    · subst ha
      simp [he]
    · have ha' : ¬ attempt = 0 := by omega
      simp [ha', he]
  | succ n ih =>
    intro attempt h
    obtain ⟨e, he, hr⟩ := h attempt (le_refl _) (by omega)
    have hrec := ih (attempt + 1) (fun n' h1 h2 => h n' (by omega) (by omega))
    have hne1 : ¬ attempt + 1 = 0 := by omega
    rw [if_neg hne1] at hrec
    unfold copilotRetryGo
    simp only [he, hr, if_true]
    rcases Nat.eq_zero_or_pos attempt with ha | ha
    · subst ha
      simp [List.length_append, hrec]
    · have ha' : ¬ attempt = 0 := by omega
      simp [ha', List.length_append, hrec]

/-! ## C4 -/

/-- C4 corrected/amended: the retry loop the code implements
(`CopilotProvider.Analyze`) waits, before retry attempt number `attempt`,
exactly `RetryDelay × attempt` — a linear, uncapped schedule, not the
exponential `min(MaxDelay, InitialDelay × Multiplier^attempt)` the claim
states: the wait sequence is always an initial segment
[RetryDelay×1, …, RetryDelay×k] with k ≤ MaxRetries, and when every attempt
fails with a retryable error exactly MaxRetries retries are performed. The
wait is a Go `select` on the caller's context and the delay timer; context
cancellation is a concurrency effect outside this embedding. -/
theorem copilot_retry_linear_backoff (retryDelay : Int) (maxRetries : Nat)
    (results : Nat → Except String ChatResponse) :
    (∃ k, k ≤ maxRetries ∧
        (copilotRetry retryDelay maxRetries results).2 =
          (List.range' 1 k).map (fun j : Nat => retryDelay * (j : Int))) ∧
    ((∀ n, n ≤ maxRetries → ∃ e, results n = Except.error e ∧ isRetryableError e = true) →
      (copilotRetry retryDelay maxRetries results).2.length = maxRetries) := by
  cases maxRetries with
  | zero =>
    have hds : (copilotRetry retryDelay 0 results).2 = [] := by
      unfold copilotRetry copilotRetryGo
      cases results 0 with
      | ok r => simp
      | error e => simp
    exact ⟨⟨0, le_refl 0, by simp [hds, List.range']⟩, fun _ => by simp [hds]⟩
  | succ n =>
    cases hres : results 0 with
    | ok r =>
      have hds : (copilotRetry retryDelay (n + 1) results).2 = [] := by
        unfold copilotRetry
        rw [copilotRetryGo_zero_step, hres]
      refine ⟨⟨0, by omega, by simp [hds, List.range']⟩, ?_⟩
      intro hall
      obtain ⟨e, he, _⟩ := hall 0 (by omega)
      rw [hres] at he
      cases he
    | error e =>
      by_cases hr : isRetryableError e = true
      · have hds : (copilotRetry retryDelay (n + 1) results).2 =
            (copilotRetryGo retryDelay results 1 n).2 := by
          unfold copilotRetry
          rw [copilotRetryGo_zero_step, hres]
          simp [hr]
        obtain ⟨k, hk1, hk2, hk3⟩ := copilotRetryGo_delays retryDelay results n 1 (le_refl 1)
        refine ⟨⟨k, by omega, ?_⟩, ?_⟩
        · rw [hds, hk3]
        · intro hall
          have hlen := copilotRetryGo_all_retryable retryDelay results (n + 1) 0
            (fun n' _ h2 => hall n' (by omega))
          unfold copilotRetry
          simpa using hlen
      · have hds : (copilotRetry retryDelay (n + 1) results).2 = [] := by
          unfold copilotRetry
          rw [copilotRetryGo_zero_step, hres]
          simp [hr]
        refine ⟨⟨0, by omega, by simp [hds, List.range']⟩, ?_⟩
        intro hall
        obtain ⟨e', he', hr'⟩ := hall 0 (by omega)
        rw [hres] at he'
        cases he'
        exact absurd hr' hr

/-- C4 amended witness: with RetryDelay 1s and MaxRetries 3, a
thrice-retryably-failing oracle produces the linear wait schedule, and an
always-retryably-failing oracle produces exactly 3 retries. -/
theorem copilot_retry_linear_backoff_witness :
    (∃ k, k ≤ 3 ∧ (copilotRetry 1000000000 3 retryResultsW).2 =
        (List.range' 1 k).map (fun j : Nat => (1000000000 : Int) * (j : Int))) ∧
      (copilotRetry 1000000000 3 retryAllFailW).2.length = 3 :=
  ⟨(copilot_retry_linear_backoff 1000000000 3 retryResultsW).1,
   (copilot_retry_linear_backoff 1000000000 3 retryAllFailW).2
     (fun _ _ => ⟨"timeout", rfl, by decide⟩)⟩

/-- C4 counterexample: with the copilot defaults (RetryDelay 1s, MaxRetries
3) and a thrice-retryably-failing call, the code waits [1s, 2s, 3s]; the
claimed formula min(MaxDelay, InitialDelay × Multiplier^attempt) under the
repository's default retry configuration (InitialDelay 1s, MaxDelay 30s,
Multiplier 2.0) prescribes 8s before retry attempt 3 (4s under a zero-based
exponent) — the third wait of 3s matches neither. -/
theorem copilot_retry_backoff_cex :
    (copilotRetry 1000000000 3 retryResultsW).2 =
        [1000000000, 2000000000, 3000000000] ∧
      specBackoffDelay 1000000000 30000000000 2 3 = 8000000000 ∧
      specBackoffDelay 1000000000 30000000000 2 2 = 4000000000 ∧
      (3000000000 : Int) ≠ 8000000000 ∧ (3000000000 : Int) ≠ 4000000000 :=
  ⟨by decide, by decide, by decide, by decide, by decide⟩
